import Mathlib

/-!
Snowflake identifier generator

A shallow embedding of `generator.go` (package `snowflakeid`) and of the decoding helper of
`generator_test.go`, followed by theorems about the embedded code.

Modelling conventions.

* A Go `int64` is a Lean `Int`.  The operators whose 64-bit behaviour differs from the behaviour
  on unbounded integers (`+`, `&`, `|`, `<<`) go through the two's-complement bit pattern
  (`toBits`, a natural number below `2^64`) and come back with `ofBits`; `>>` on a signed
  operand is the arithmetic shift, which is floor division.
* `g.timestamp()` reads the wall clock.  The clock is the list of values that the successive
  calls of `g.timestamp()` return (milliseconds since the chosen epoch); every call consumes
  the head of the list.  A call that needs a reading when the list is empty has not returned:
  its result is `Result.blocked`.
* A Go panic is the result `Result.panic msg`.  The generator is passed explicitly: every
  operation returns the generator as the call left it, also when it panics.
* The mutex is not modelled: calls are executed one after the other.
* The epoch pointer is taken to be non-nil, so that `g.timestamp()` itself never panics.
-/

namespace Snowflake

/-! ## 64-bit integers -/

/-- The two's-complement bit pattern of an `int64` value, as a natural number below `2^64`. -/
def toBits (x : Int) : Nat := (x % ((2 ^ 64 : Nat) : Int)).toNat

/-- The `int64` value of a bit pattern; bits from position 64 on are dropped. -/
def ofBits (n : Nat) : Int :=
  if n % 2 ^ 64 < 2 ^ 63 then ((n % 2 ^ 64 : Nat) : Int)
  else ((n % 2 ^ 64 : Nat) : Int) - ((2 ^ 64 : Nat) : Int)

/-- Go `a + b` on `int64`: wraps around. -/
def add64 (a b : Int) : Int := ofBits (toBits a + toBits b)

/-- Go `a & b` on `int64`. -/
def and64 (a b : Int) : Int := ofBits (toBits a &&& toBits b)

/-- Go `a | b` on `int64`. -/
def or64 (a b : Int) : Int := ofBits (toBits a ||| toBits b)

/-- Go `a << k` on `int64`: the bits shifted past position 63 are lost. -/
def shl64 (a : Int) (k : Nat) : Int := ofBits (toBits a <<< k)

/-- Go `a >> k` on `int64`: arithmetic shift, the sign is kept. -/
def shr64 (a : Int) (k : Nat) : Int := a >>> k

/-! ## Constants (generator.go, lines 9-15) -/

def SIGN_BIT : Nat := 1
def TIMESTAMP_BIT : Nat := 41
def MACHINE_ID_BIT : Nat := 10
def SEQUENCE_BIT : Nat := 12

/-- Go `int64(1<<MACHINE_ID_BIT) - 1`. -/
def MAX_MACHINE_ID : Int := ((1 <<< MACHINE_ID_BIT : Nat) : Int) - 1

/-- Go `int64(1<<SEQUENCE_BIT) - 1`. -/
def MAX_SEQUENCE : Int := ((1 <<< SEQUENCE_BIT : Nat) : Int) - 1

/-! ## State and results -/

/-- The struct `SnowflakeIDGenerator` without its mutex.  `chosenEpoch` is the instant the
pointer field refers to; only `timestamp()` reads it. -/
structure SnowflakeIDGenerator where
  chosenEpoch : Int
  machineID : Int
  currentSequenceNumber : Int
  lastGeneratedTimestamp : Int
deriving DecidableEq, Repr

/-- How a call ends: it returns a value, it panics with a message, or the clock readings ran
out before it could return. -/
inductive Result (α : Type) where
  | ok (val : α)
  | panic (msg : String)
  | blocked
deriving DecidableEq, Repr

/-- The successive values returned by `g.timestamp()`. -/
abbrev Clock := List Int

/-- What a call leaves behind: its result, the generator and the unread clock readings. -/
structure Outcome (α : Type) where
  result : Result α
  gen : SnowflakeIDGenerator
  clock : Clock
deriving DecidableEq, Repr

/-- The message of the panic in `getNextSequenceNumber` (generator.go, line 55). -/
def clockPanicMessage : String := "Invalid System Clock!"

/-- Go `strconv.FormatInt(x, 10)`. -/
def formatInt (x : Int) : String := toString x

/-! ## Operations (generator.go) -/

/-- Go `NewGenerator` (lines 25-34). -/
def NewGenerator (chosenEpoch : Int) (machineID : Int) : Result SnowflakeIDGenerator :=
  if machineID > MAX_MACHINE_ID then
    .panic ("machineID must be less than " ++ formatInt MAX_MACHINE_ID)
  else
    .ok { chosenEpoch := chosenEpoch
          machineID := machineID
          currentSequenceNumber := 0
          lastGeneratedTimestamp := 0 }

/-- Go `timestamp` (lines 81-83): the next reading of the clock, if there is one. -/
def timestamp (_g : SnowflakeIDGenerator) : Clock → Option (Int × Clock)
  | [] => none
  | t :: rest => some (t, rest)

/-- Go `waitUntilNextMillisecond` (lines 72-79): read the clock until the reading differs from
`g.lastGeneratedTimestamp`.  The parameter `timeFromEpoch` is overwritten before it is read,
as in the source. -/
def waitUntilNextMillisecond (g : SnowflakeIDGenerator) (_timeFromEpoch : Int) :
    Clock → Option (Int × Clock)
  | [] => none
  | t :: rest =>
    if t ≠ g.lastGeneratedTimestamp then some (t, rest)
    else waitUntilNextMillisecond g t rest

/-- Go `getNextSequenceNumber` (lines 48-70).  The value is the pair
`(currentSequenceNumber, currentTimestamp)`. -/
def getNextSequenceNumber (g : SnowflakeIDGenerator) (clock : Clock) : Outcome (Int × Int) :=
  match timestamp g clock with
  | none => ⟨.blocked, g, clock⟩
  | some (currentTimestamp, clock1) =>
    if currentTimestamp < g.lastGeneratedTimestamp then
      ⟨.panic clockPanicMessage, g, clock1⟩
    else if currentTimestamp > g.lastGeneratedTimestamp then
      let g1 := { g with currentSequenceNumber := 0 }
      let g2 := { g1 with lastGeneratedTimestamp := currentTimestamp }
      ⟨.ok (g2.currentSequenceNumber, currentTimestamp), g2, clock1⟩
    else
      let g1 := { g with
        currentSequenceNumber := and64 (add64 g.currentSequenceNumber 1) MAX_SEQUENCE }
      if g1.currentSequenceNumber = 0 then
        match waitUntilNextMillisecond g1 currentTimestamp clock1 with
        | none => ⟨.blocked, g1, []⟩
        | some (t, clock2) =>
          let g2 := { g1 with lastGeneratedTimestamp := t }
          ⟨.ok (g2.currentSequenceNumber, t), g2, clock2⟩
      else
        let g2 := { g1 with lastGeneratedTimestamp := currentTimestamp }
        ⟨.ok (g2.currentSequenceNumber, currentTimestamp), g2, clock1⟩

/-- The assembly of `GenerateID` (lines 39-45) from the machine id and the pair returned by
`getNextSequenceNumber`. -/
def assemble (machineID seq timestamp : Int) : Int :=
  let machineIDMask : Int := ((1 <<< (MACHINE_ID_BIT + SEQUENCE_BIT) : Nat) : Int) - 1
  let paddedMachineID := shl64 (and64 machineIDMask machineID) SEQUENCE_BIT
  let timestampMask : Int :=
    ((1 <<< (TIMESTAMP_BIT + MACHINE_ID_BIT + SEQUENCE_BIT) : Nat) : Int) - 1
  let paddedTimestamp := shl64 (and64 timestampMask timestamp) (MACHINE_ID_BIT + SEQUENCE_BIT)
  or64 (or64 paddedMachineID paddedTimestamp) seq

/-- Go `GenerateID` (lines 36-46). -/
def GenerateID (g : SnowflakeIDGenerator) (clock : Clock) : Outcome Int :=
  let r := getNextSequenceNumber g clock
  match r.result with
  | .ok (seq, timestamp) => ⟨.ok (assemble r.gen.machineID seq timestamp), r.gen, r.clock⟩
  | .panic msg => ⟨.panic msg, r.gen, r.clock⟩
  | .blocked => ⟨.blocked, r.gen, r.clock⟩

/-- Go `decodeID` (generator_test.go, lines 21-26): `(ts, machineID, seq)`. -/
def decodeID (id : Int) : Int × Int × Int :=
  let seq := and64 id MAX_SEQUENCE
  let machineID := and64 (shr64 id SEQUENCE_BIT) MAX_MACHINE_ID
  let ts := shr64 id (SEQUENCE_BIT + MACHINE_ID_BIT)
  (ts, machineID, seq)

/-- A run of `n` successive calls of `GenerateID` on one generator, as in the loop of
`TestGenerateID_UniqueSequential`: every call reads the clock where the call before left it.
The value lists, for each call in order, the identifier returned and the generator as the call
left it; it is `none` when some call does not return an identifier. -/
def generateIDs : Nat → SnowflakeIDGenerator → Clock →
    Option (List (Int × SnowflakeIDGenerator))
  | 0, _, _ => some []
  | n + 1, g, clock =>
    match GenerateID g clock with
    | ⟨.ok id, g1, clock1⟩ =>
      match generateIDs n g1 clock1 with
      | some calls => some ((id, g1) :: calls)
      | none => none
    | _ => none

/-- The assembly formula in the words of the specification (section 4.2): the timestamp is
masked to 41 bits, the machine id to 10 bits and the sequence to 12 bits, each before its
shift; `a << 22 | b << 12 | c` on 64-bit integers. -/
def assembleSpec (machineID seq timestamp : Int) : Int :=
  or64
    (or64 (shl64 (and64 timestamp (((1 <<< 41 : Nat) : Int) - 1)) 22)
      (shl64 (and64 machineID (((1 <<< 10 : Nat) : Int) - 1)) 12))
    (and64 seq (((1 <<< 12 : Nat) : Int) - 1))

/-! ## Arithmetic of the 64-bit operators -/

theorem toBits_lt (x : Int) : toBits x < 2 ^ 64 := by
  unfold toBits
  omega

theorem toBits_natCast (n : Nat) (h : n < 2 ^ 64) : toBits (n : Int) = n := by
  unfold toBits
  omega

theorem ofBits_of_lt (n : Nat) (h : n < 2 ^ 63) : ofBits n = (n : Int) := by
  unfold ofBits
  have h1 : n % 2 ^ 64 = n := Nat.mod_eq_of_lt (by omega)
  rw [h1, if_pos h]

theorem mask_and (k y : Nat) : (2 ^ k - 1) &&& y = y % 2 ^ k := by
  rw [Nat.and_comm, Nat.and_pow_two_sub_one_eq_mod]

theorem and_mask (k y : Nat) : y &&& (2 ^ k - 1) = y % 2 ^ k :=
  Nat.and_pow_two_sub_one_eq_mod y k

theorem or_eq_add (i a b : Nat) (hb : b < 2 ^ i) : a * 2 ^ i ||| b = a * 2 ^ i + b := by
  rw [Nat.mul_comm a (2 ^ i)]
  exact (Nat.mul_add_lt_is_or hb a).symm

theorem toBits_machineIDMask :
    toBits (((1 <<< (MACHINE_ID_BIT + SEQUENCE_BIT) : Nat) : Int) - 1) = 2 ^ 22 - 1 := by
  decide

theorem toBits_timestampMask :
    toBits (((1 <<< (TIMESTAMP_BIT + MACHINE_ID_BIT + SEQUENCE_BIT) : Nat) : Int) - 1)
      = 2 ^ 63 - 1 := by
  decide

theorem or64_natCast (a b : Nat) (ha : a < 2 ^ 63) (hb : b < 2 ^ 63) :
    or64 (a : Int) (b : Int) = ((a ||| b : Nat) : Int) := by
  unfold or64
  rw [toBits_natCast a (by omega), toBits_natCast b (by omega)]
  exact ofBits_of_lt _ (Nat.or_lt_two_pow ha hb)

theorem shl64_natCast (a k : Nat) (h : a * 2 ^ k < 2 ^ 63) :
    shl64 (a : Int) k = ((a * 2 ^ k : Nat) : Int) := by
  have hk : 0 < 2 ^ k := Nat.pos_pow_of_pos k (by norm_num)
  have ha : a ≤ a * 2 ^ k := Nat.le_mul_of_pos_right a hk
  unfold shl64
  rw [toBits_natCast a (by omega), Nat.shiftLeft_eq]
  exact ofBits_of_lt _ h

/-- The identifier as a bit pattern, for any machine id: the machine id is cut to 22 bits and
placed at bit 12, the timestamp is placed at bit 22. -/
theorem assemble_bits (m : Int) (s t : Nat) (hs : s < 2 ^ 12) (ht : t < 2 ^ 41) :
    assemble m s t = (((toBits m % 2 ^ 22) * 2 ^ 12 ||| t * 2 ^ 22 ||| s : Nat) : Int) ∧
    ((toBits m % 2 ^ 22) * 2 ^ 12 ||| t * 2 ^ 22 ||| s) < 2 ^ 63 := by
  have hm : toBits m % 2 ^ 22 < 2 ^ 22 := Nat.mod_lt _ (by norm_num)
  have hpm : (toBits m % 2 ^ 22) * 2 ^ 12 < 2 ^ 63 := by omega
  have hpt : t * 2 ^ 22 < 2 ^ 63 := by omega
  have hor : (toBits m % 2 ^ 22) * 2 ^ 12 ||| t * 2 ^ 22 < 2 ^ 63 := Nat.or_lt_two_pow hpm hpt
  have hall : ((toBits m % 2 ^ 22) * 2 ^ 12 ||| t * 2 ^ 22 ||| s) < 2 ^ 63 :=
    Nat.or_lt_two_pow hor (by omega)
  refine ⟨?_, hall⟩
  have e1 : and64 (((1 <<< (MACHINE_ID_BIT + SEQUENCE_BIT) : Nat) : Int) - 1) m
      = ((toBits m % 2 ^ 22 : Nat) : Int) := by
    unfold and64
    rw [toBits_machineIDMask, mask_and, ofBits_of_lt _ (by omega)]
  have e2 : and64 (((1 <<< (TIMESTAMP_BIT + MACHINE_ID_BIT + SEQUENCE_BIT) : Nat) : Int) - 1)
      (t : Int) = (t : Int) := by
    unfold and64
    rw [toBits_timestampMask, toBits_natCast t (by omega), mask_and,
      Nat.mod_eq_of_lt (by omega), ofBits_of_lt _ (by omega)]
  have e3 : shl64 ((toBits m % 2 ^ 22 : Nat) : Int) SEQUENCE_BIT
      = (((toBits m % 2 ^ 22) * 2 ^ 12 : Nat) : Int) := shl64_natCast _ 12 hpm
  have e4 : shl64 (t : Int) (MACHINE_ID_BIT + SEQUENCE_BIT) = ((t * 2 ^ 22 : Nat) : Int) :=
    shl64_natCast t 22 hpt
  unfold assemble
  simp only [e1, e2, e3, e4]
  rw [or64_natCast _ _ hpm hpt, or64_natCast _ _ hor (by omega)]

/-- The identifier as a sum when the three fields are in range. -/
theorem assemble_eq (m s t : Nat) (hm : m < 2 ^ 10) (hs : s < 2 ^ 12) (ht : t < 2 ^ 41) :
    assemble (m : Int) (s : Int) (t : Int) = ((t * 2 ^ 22 + m * 2 ^ 12 + s : Nat) : Int) := by
  rw [(assemble_bits (m : Int) s t hs ht).1, toBits_natCast m (by omega),
    Nat.mod_eq_of_lt (by omega), Nat.lor_comm (m * 2 ^ 12), or_eq_add 22 t _ (by omega)]
  have h : t * 2 ^ 22 + m * 2 ^ 12 = (t * 2 ^ 10 + m) * 2 ^ 12 := by ring
  rw [h, or_eq_add 12 _ s hs]

theorem seq_step (s : Int) : and64 (add64 s 1) MAX_SEQUENCE = (s + 1) % 4096 := by
  have h1 : toBits MAX_SEQUENCE = 2 ^ 12 - 1 := by decide
  have h2 : toBits (1 : Int) = 1 := by decide
  have hlt : toBits s + 1 < 2 ^ 64 + 1 := by have := toBits_lt s; omega
  have h3 : toBits (add64 s 1) = (toBits s + 1) % 2 ^ 64 := by
    unfold add64
    rw [h2]
    unfold ofBits toBits
    split <;> omega
  unfold and64
  rw [h1, and_mask, h3, ofBits_of_lt _ (by omega)]
  unfold toBits
  omega

theorem wait_some (g : SnowflakeIDGenerator) (x : Int) (clock : Clock) (t : Int) (rest : Clock)
    (h : waitUntilNextMillisecond g x clock = some (t, rest)) :
    t ≠ g.lastGeneratedTimestamp ∧
      ∃ pre, clock = pre ++ t :: rest ∧ ∀ y ∈ pre, y = g.lastGeneratedTimestamp := by
  induction clock generalizing x with
  | nil => simp [waitUntilNextMillisecond] at h
  | cons r tail ih =>
    unfold waitUntilNextMillisecond at h
    by_cases hr : r ≠ g.lastGeneratedTimestamp
    · rw [if_pos hr] at h
      simp only [Option.some.injEq, Prod.mk.injEq] at h
      obtain ⟨rfl, rfl⟩ := h
      exact ⟨hr, [], rfl, by simp⟩
    · rw [if_neg hr] at h
      obtain ⟨h1, pre, h2, h3⟩ := ih r h
      refine ⟨h1, r :: pre, by rw [h2]; rfl, ?_⟩
      intro y hy
      rcases List.mem_cons.mp hy with rfl | hy
      · exact not_not.mp hr
      · exact h3 y hy

/-- The three ways in which `getNextSequenceNumber` returns a pair. -/
theorem getNext_ok (g : SnowflakeIDGenerator) (clock : Clock) (seq ts : Int)
    (g' : SnowflakeIDGenerator) (rest : Clock)
    (h : getNextSequenceNumber g clock = ⟨.ok (seq, ts), g', rest⟩) :
    ∃ r tail, clock = r :: tail ∧ g.lastGeneratedTimestamp ≤ r ∧
      g' = { g with currentSequenceNumber := seq, lastGeneratedTimestamp := ts } ∧
      ((g.lastGeneratedTimestamp < r ∧ seq = 0 ∧ ts = r ∧ rest = tail) ∨
       (r = g.lastGeneratedTimestamp ∧ seq = (g.currentSequenceNumber + 1) % 4096 ∧ seq ≠ 0 ∧
          ts = r ∧ rest = tail) ∨
       (r = g.lastGeneratedTimestamp ∧ seq = 0 ∧ (g.currentSequenceNumber + 1) % 4096 = 0 ∧
          ts ≠ g.lastGeneratedTimestamp ∧
          ∃ pre, tail = pre ++ ts :: rest ∧ ∀ x ∈ pre, x = g.lastGeneratedTimestamp)) := by
  cases clock with
  | nil => simp [getNextSequenceNumber, timestamp] at h
  | cons r tail =>
    refine ⟨r, tail, rfl, ?_⟩
    simp only [getNextSequenceNumber, timestamp, seq_step] at h
    by_cases h1 : r < g.lastGeneratedTimestamp
    · rw [if_pos h1] at h
      simp at h
    · rw [if_neg h1] at h
      refine ⟨by omega, ?_⟩
      by_cases h2 : r > g.lastGeneratedTimestamp
      · rw [if_pos h2] at h
        simp only [Outcome.mk.injEq, Result.ok.injEq, Prod.mk.injEq] at h
        obtain ⟨⟨rfl, rfl⟩, rfl, rfl⟩ := h
        exact ⟨rfl, Or.inl ⟨h2, rfl, rfl, rfl⟩⟩
      · rw [if_neg h2] at h
        have hr : r = g.lastGeneratedTimestamp := by omega
        by_cases h3 : (g.currentSequenceNumber + 1) % 4096 = 0
        · rw [if_pos h3] at h
          split at h
          · simp at h
          · rename_i t clock2 hw
            simp only [Outcome.mk.injEq, Result.ok.injEq, Prod.mk.injEq] at h
            obtain ⟨⟨rfl, rfl⟩, rfl, rfl⟩ := h
            obtain ⟨hne, pre, hpre, hall⟩ := wait_some _ _ _ _ _ hw
            exact ⟨rfl, Or.inr (Or.inr ⟨hr, h3, h3, hne, pre, hpre, hall⟩)⟩
        · rw [if_neg h3] at h
          simp only [Outcome.mk.injEq, Result.ok.injEq, Prod.mk.injEq] at h
          obtain ⟨⟨rfl, rfl⟩, rfl, rfl⟩ := h
          exact ⟨rfl, Or.inr (Or.inl ⟨hr, rfl, h3, rfl, rfl⟩)⟩

/-- A successful `GenerateID` is a successful `getNextSequenceNumber` followed by the
assembly. -/
theorem GenerateID_ok_iff (g : SnowflakeIDGenerator) (clock : Clock) (id : Int)
    (g' : SnowflakeIDGenerator) (rest : Clock) :
    GenerateID g clock = ⟨.ok id, g', rest⟩ ↔
      ∃ seq ts, getNextSequenceNumber g clock = ⟨.ok (seq, ts), g', rest⟩ ∧
        id = assemble g'.machineID seq ts := by
  unfold GenerateID
  rcases hr : getNextSequenceNumber g clock with ⟨res, gen, clk⟩
  cases res with
  | ok val =>
    obtain ⟨seq, ts⟩ := val
    simp only [Outcome.mk.injEq, Result.ok.injEq, Prod.mk.injEq]
    constructor
    · rintro ⟨rfl, rfl, rfl⟩
      exact ⟨seq, ts, ⟨⟨rfl, rfl⟩, rfl, rfl⟩, rfl⟩
    · rintro ⟨s, t, ⟨⟨rfl, rfl⟩, rfl, rfl⟩, rfl⟩
      exact ⟨rfl, rfl, rfl⟩
  | panic msg => simp
  | blocked => simp

/-- The identifier as an integer sum when the three fields are in range. -/
theorem assemble_eq_int (m s t : Int) (hm : 0 ≤ m ∧ m ≤ 1023) (hs : 0 ≤ s ∧ s ≤ 4095)
    (ht : 0 ≤ t ∧ t < 2 ^ 41) : assemble m s t = t * 4194304 + m * 4096 + s := by
  obtain ⟨m', rfl⟩ := Int.eq_ofNat_of_zero_le hm.1
  obtain ⟨s', rfl⟩ := Int.eq_ofNat_of_zero_le hs.1
  obtain ⟨t', rfl⟩ := Int.eq_ofNat_of_zero_le ht.1
  rw [assemble_eq m' s' t' (by omega) (by omega) (by omega)]
  push_cast
  ring

/-- The readings a successful call has consumed, and what it leaves: the stored timestamp is
one of the readings, the stored sequence is in range, and when no reading is below the
timestamp stored before, the pair (timestamp, sequence) has grown. -/
theorem ok_step (g : SnowflakeIDGenerator) (clock obs : Clock) (seq ts : Int)
    (g' : SnowflakeIDGenerator) (rest : Clock)
    (h : getNextSequenceNumber g clock = ⟨.ok (seq, ts), g', rest⟩)
    (hobs : clock = obs ++ rest) :
    g'.machineID = g.machineID ∧ g'.currentSequenceNumber = seq ∧
      g'.lastGeneratedTimestamp = ts ∧ 0 ≤ seq ∧ seq ≤ 4095 ∧ ts ∈ obs ∧
      ((∀ r ∈ obs, g.lastGeneratedTimestamp ≤ r) → 0 ≤ g.currentSequenceNumber →
        g.currentSequenceNumber ≤ 4095 →
        g.lastGeneratedTimestamp < ts ∨
          (ts = g.lastGeneratedTimestamp ∧ g.currentSequenceNumber < seq)) := by
  obtain ⟨r, tail, hc, hle, hg, hcase⟩ := getNext_ok g clock seq ts g' rest h
  subst hg
  refine ⟨rfl, rfl, rfl, ?_⟩
  rcases hcase with ⟨h1, rfl, rfl, rfl⟩ | ⟨rfl, rfl, h3, rfl, rfl⟩ | ⟨rfl, rfl, h3, h4, pre, rfl, h6⟩
  · have ho : obs = [ts] := List.append_cancel_right (hobs.symm.trans hc)
    subst ho
    exact ⟨le_refl _, by norm_num, by simp, fun _ _ _ => Or.inl h1⟩
  · have ho : obs = [g.lastGeneratedTimestamp] := List.append_cancel_right (hobs.symm.trans hc)
    subst ho
    refine ⟨by omega, by omega, by simp, fun _ _ _ => Or.inr ⟨rfl, by omega⟩⟩
  · have ho : obs = g.lastGeneratedTimestamp :: (pre ++ [ts]) := by
      have hcat : obs ++ rest = (g.lastGeneratedTimestamp :: (pre ++ [ts])) ++ rest := by
        rw [← hobs, hc]
        simp
      exact List.append_cancel_right hcat
    subst ho
    refine ⟨le_refl _, by norm_num, by simp, fun hge _ _ => Or.inl ?_⟩
    have := hge ts (by simp)
    omega


theorem and64_MAX_SEQUENCE (x : Int) : and64 x MAX_SEQUENCE = x % 4096 := by
  have h1 : toBits MAX_SEQUENCE = 2 ^ 12 - 1 := by decide
  have := toBits_lt x
  unfold and64
  rw [h1, and_mask, ofBits_of_lt _ (by omega)]
  unfold toBits
  omega

theorem and64_MAX_MACHINE_ID (x : Int) : and64 x MAX_MACHINE_ID = x % 1024 := by
  have h1 : toBits MAX_MACHINE_ID = 2 ^ 10 - 1 := by decide
  have := toBits_lt x
  unfold and64
  rw [h1, and_mask, ofBits_of_lt _ (by omega)]
  unfold toBits
  omega

/-- Decoding an identifier whose three fields are in range gives the fields back. -/
theorem decodeID_assemble (m s t : Int) (hm : 0 ≤ m ∧ m ≤ 1023) (hs : 0 ≤ s ∧ s ≤ 4095)
    (ht : 0 ≤ t ∧ t < 2 ^ 41) : decodeID (assemble m s t) = (t, m, s) := by
  rw [assemble_eq_int m s t hm hs ht]
  unfold decodeID
  simp only [and64_MAX_SEQUENCE, and64_MAX_MACHINE_ID, shr64, Int.shiftRight_eq_div_pow,
    SEQUENCE_BIT, MACHINE_ID_BIT]
  refine Prod.ext ?_ (Prod.ext ?_ ?_) <;> simp only <;> push_cast <;> omega

/-- The lexicographic order on in-range (timestamp, sequence) pairs is the order of the
identifiers of one machine. -/
theorem assemble_lt (m s t s' t' : Int) (hm : 0 ≤ m ∧ m ≤ 1023) (hs : 0 ≤ s ∧ s ≤ 4095)
    (ht : 0 ≤ t ∧ t < 2 ^ 41) (hs' : 0 ≤ s' ∧ s' ≤ 4095) (ht' : 0 ≤ t' ∧ t' < 2 ^ 41)
    (h : t < t' ∨ (t' = t ∧ s < s')) : assemble m s t < assemble m s' t' := by
  rw [assemble_eq_int m s t hm hs ht, assemble_eq_int m s' t' hm hs' ht']
  omega

/-- The readings consumed by a successful call start with a reading that is not below the
stored timestamp. -/
theorem ok_observed (g : SnowflakeIDGenerator) (clock : Clock) (seq ts : Int)
    (g' : SnowflakeIDGenerator) (rest : Clock)
    (h : getNextSequenceNumber g clock = ⟨.ok (seq, ts), g', rest⟩) :
    ∃ r obs, clock = (r :: obs) ++ rest ∧ g.lastGeneratedTimestamp ≤ r := by
  obtain ⟨r, tail, hc, hle, -, hcase⟩ := getNext_ok g clock seq ts g' rest h
  rcases hcase with ⟨-, -, -, rfl⟩ | ⟨-, -, -, -, rfl⟩ | ⟨-, -, -, -, pre, rfl, -⟩
  · exact ⟨r, [], by simpa using hc, hle⟩
  · exact ⟨r, [], by simpa using hc, hle⟩
  · exact ⟨r, pre ++ [ts], by simpa using hc, hle⟩


/-- On a non-decreasing clock a run of successful calls returns strictly increasing
identifiers, all above the identifier of the pair stored at the start. -/
theorem run_increasing (n : Nat) : ∀ (g : SnowflakeIDGenerator) (clock : Clock)
    (calls : List (Int × SnowflakeIDGenerator)),
    (0 ≤ g.machineID ∧ g.machineID ≤ 1023) →
    (0 ≤ g.currentSequenceNumber ∧ g.currentSequenceNumber ≤ 4095) →
    (0 ≤ g.lastGeneratedTimestamp ∧ g.lastGeneratedTimestamp < 2 ^ 41) →
    clock.Pairwise (· ≤ ·) →
    generateIDs n g clock = some calls →
    (∀ c ∈ calls, 0 ≤ c.2.lastGeneratedTimestamp ∧ c.2.lastGeneratedTimestamp < 2 ^ 41) →
    (calls.map Prod.fst).Pairwise (· < ·) ∧
      ∀ c ∈ calls, assemble g.machineID g.currentSequenceNumber g.lastGeneratedTimestamp
        < c.1 := by
  induction n with
  | zero =>
    intro g clock calls _ _ _ _ hrun _
    simp only [generateIDs, Option.some.injEq] at hrun
    subst hrun
    simp
  | succ n ih =>
    intro g clock calls hm hs hl hclock hrun hts
    unfold generateIDs at hrun
    rcases hG : GenerateID g clock with ⟨res, g1, clock1⟩
    rw [hG] at hrun
    cases res with
    | panic msg => simp at hrun
    | blocked => simp at hrun
    | ok id =>
      simp only at hrun
      cases hrec : generateIDs n g1 clock1 with
      | none => rw [hrec] at hrun; simp at hrun
      | some calls1 =>
        rw [hrec] at hrun
        simp only [Option.some.injEq] at hrun
        subst hrun
        obtain ⟨seq, ts, hnext, hid⟩ := (GenerateID_ok_iff g clock id g1 clock1).mp hG
        obtain ⟨r, obs, hsplit, hle⟩ := ok_observed g clock seq ts g1 clock1 hnext
        obtain ⟨hm1, hs1, hl1, hs0, hs4, hmem, hgrow⟩ :=
          ok_step g clock (r :: obs) seq ts g1 clock1 hnext hsplit
        rw [hsplit] at hclock
        obtain ⟨hobs, hrest, hcross⟩ := List.pairwise_append.mp hclock
        have hge : ∀ x ∈ r :: obs, g.lastGeneratedTimestamp ≤ x := by
          intro x hx
          rcases List.mem_cons.mp hx with rfl | hx
          · exact hle
          · exact le_trans hle ((List.pairwise_cons.mp hobs).1 x hx)
        have hts1 : 0 ≤ ts ∧ ts < 2 ^ 41 := by
          have := hts (id, g1) (by simp)
          rw [← hl1]
          exact this
        have hlt : assemble g.machineID g.currentSequenceNumber g.lastGeneratedTimestamp < id := by
          rw [hid, hm1]
          exact assemble_lt _ _ _ _ _ hm hs hl ⟨hs0, hs4⟩ hts1 (hgrow hge hs.1 hs.2)
        obtain ⟨hp, hall⟩ := ih g1 clock1 calls1 (by rw [hm1]; exact hm)
          (by rw [hs1]; exact ⟨hs0, hs4⟩) (by rw [hl1]; exact hts1) hrest hrec
          (fun c hc => hts c (List.mem_cons_of_mem _ hc))
        have hid1 : assemble g1.machineID g1.currentSequenceNumber g1.lastGeneratedTimestamp
            = id := by rw [hid, hs1, hl1]
        rw [hid1] at hall
        constructor
        · rw [List.map_cons, List.pairwise_cons]
          refine ⟨?_, hp⟩
          intro y hy
          obtain ⟨c, hc, rfl⟩ := List.mem_map.mp hy
          exact hall c hc
        · intro c hc
          rcases List.mem_cons.mp hc with rfl | hc
          · exact hlt
          · exact lt_trans hlt (hall c hc)

/-- C1. Sequential uniqueness: from the fresh generator that `NewGenerator` returns for a
machine id in [0, 1023], on a non-decreasing clock, a run of `n` successive calls of
`GenerateID` that all return an identifier and all store a timestamp in [0, 2^41) returns
pairwise distinct identifiers. -/
theorem sequential_uniqueness (chosenEpoch machineID : Int) (g : SnowflakeIDGenerator)
    (clock : Clock) (n : Nat) (calls : List (Int × SnowflakeIDGenerator))
    (hm : 0 ≤ machineID ∧ machineID ≤ 1023)
    (hnew : NewGenerator chosenEpoch machineID = .ok g)
    (hclock : clock.Pairwise (· ≤ ·))
    (hrun : generateIDs n g clock = some calls)
    (hts : ∀ c ∈ calls, 0 ≤ c.2.lastGeneratedTimestamp ∧ c.2.lastGeneratedTimestamp < 2 ^ 41) :
    (calls.map Prod.fst).Nodup := by
  have hg : g = ⟨chosenEpoch, machineID, 0, 0⟩ := by
    unfold NewGenerator at hnew
    split at hnew
    · simp at hnew
    · simp only [Result.ok.injEq] at hnew
      exact hnew.symm
  subst hg
  have h := (run_increasing n _ clock calls hm (by simp) (by simp) hclock hrun hts).1
  exact h.imp (fun hab => ne_of_lt hab)

/-- Witness of C1: three calls on the clock 0, 0, 1 for machine 1. -/
theorem sequential_uniqueness_witness :
    generateIDs 3 ⟨0, 1, 0, 0⟩ [0, 0, 1]
      = some [(4097, ⟨0, 1, 1, 0⟩), (4098, ⟨0, 1, 2, 0⟩), (4198400, ⟨0, 1, 0, 1⟩)] ∧
    ([4097, 4098, 4198400] : List Int).Nodup :=
  ⟨by decide,
   sequential_uniqueness 0 1 ⟨0, 1, 0, 0⟩ [0, 0, 1] 3
     [(4097, ⟨0, 1, 1, 0⟩), (4098, ⟨0, 1, 2, 0⟩), (4198400, ⟨0, 1, 0, 1⟩)]
     (by decide) (by decide) (by decide) (by decide) (by decide)⟩


/-- What a successful `GenerateID` returns and leaves, in terms of the stored fields. -/
theorem GenerateID_ok (g : SnowflakeIDGenerator) (clock : Clock) (id : Int)
    (g' : SnowflakeIDGenerator) (rest : Clock)
    (h : GenerateID g clock = ⟨.ok id, g', rest⟩) :
    getNextSequenceNumber g clock
        = ⟨.ok (g'.currentSequenceNumber, g'.lastGeneratedTimestamp), g', rest⟩ ∧
      id = assemble g.machineID g'.currentSequenceNumber g'.lastGeneratedTimestamp ∧
      g'.machineID = g.machineID ∧
      0 ≤ g'.currentSequenceNumber ∧ g'.currentSequenceNumber ≤ 4095 := by
  obtain ⟨seq, ts, hnext, hid⟩ := (GenerateID_ok_iff g clock id g' rest).mp h
  obtain ⟨r, obs, hsplit, -⟩ := ok_observed g clock seq ts g' rest hnext
  obtain ⟨hm, hs, hl, hs0, hs4, -, -⟩ := ok_step g clock (r :: obs) seq ts g' rest hnext hsplit
  subst hs hl
  exact ⟨hnext, by rw [hid, hm], hm, hs0, hs4⟩

/-- Identifiers of different in-range machine ids differ. -/
theorem assemble_ne (m s t m' s' t' : Int) (hm : 0 ≤ m ∧ m ≤ 1023) (hs : 0 ≤ s ∧ s ≤ 4095)
    (ht : 0 ≤ t ∧ t < 2 ^ 41) (hm' : 0 ≤ m' ∧ m' ≤ 1023) (hs' : 0 ≤ s' ∧ s' ≤ 4095)
    (ht' : 0 ≤ t' ∧ t' < 2 ^ 41) (h : m ≠ m') : assemble m s t ≠ assemble m' s' t' := by
  rw [assemble_eq_int m s t hm hs ht, assemble_eq_int m' s' t' hm' hs' ht']
  omega

/-- C2. Sequential monotonicity: for a generator with machine id in [0, 1023], in any state, if
a call A that returns an identifier is followed at once by a call B that returns an identifier,
no clock reading consumed by B is below the timestamp A stored, and both stored timestamps are
in [0, 2^41), then the identifier of A is below the identifier of B, as signed integers and as
unsigned 64-bit patterns. -/
theorem sequential_monotonicity (g gA gB : SnowflakeIDGenerator)
    (clock restA obsB restB : Clock) (idA idB : Int)
    (hm : 0 ≤ g.machineID ∧ g.machineID ≤ 1023)
    (hA : GenerateID g clock = ⟨.ok idA, gA, restA⟩)
    (hB : GenerateID gA restA = ⟨.ok idB, gB, restB⟩)
    (hobs : restA = obsB ++ restB)
    (hge : ∀ r ∈ obsB, gA.lastGeneratedTimestamp ≤ r)
    (htA : 0 ≤ gA.lastGeneratedTimestamp ∧ gA.lastGeneratedTimestamp < 2 ^ 41)
    (htB : 0 ≤ gB.lastGeneratedTimestamp ∧ gB.lastGeneratedTimestamp < 2 ^ 41) :
    idA < idB ∧ toBits idA < toBits idB := by
  obtain ⟨-, hidA, hmA, hsA0, hsA4⟩ := GenerateID_ok g clock idA gA restA hA
  obtain ⟨hnextB, hidB, hmB, hsB0, hsB4⟩ := GenerateID_ok gA restA idB gB restB hB
  obtain ⟨-, -, -, -, -, -, hgrow⟩ := ok_step gA restA obsB _ _ gB restB hnextB hobs
  rw [assemble_eq_int _ _ _ hm ⟨hsA0, hsA4⟩ htA] at hidA
  rw [hmA, assemble_eq_int _ _ _ hm ⟨hsB0, hsB4⟩ htB] at hidB
  have hlex := hgrow hge hsA0 hsA4
  have hlt : idA < idB := by omega
  refine ⟨hlt, ?_⟩
  unfold toBits
  omega

/-- Witness of C2: machine 7, clock 5, 5. -/
theorem sequential_monotonicity_witness :
    GenerateID ⟨0, 7, 0, 0⟩ [5, 5] = ⟨.ok 21000192, ⟨0, 7, 0, 5⟩, [5]⟩ ∧
    GenerateID ⟨0, 7, 0, 5⟩ [5] = ⟨.ok 21000193, ⟨0, 7, 1, 5⟩, []⟩ ∧
    ((21000192 : Int) < 21000193 ∧ toBits 21000192 < toBits 21000193) :=
  ⟨by decide, by decide,
   sequential_monotonicity ⟨0, 7, 0, 0⟩ ⟨0, 7, 0, 5⟩ ⟨0, 7, 1, 5⟩ [5, 5] [5] [5] [] 21000192
     21000193 (by decide) (by decide) (by decide) (by decide) (by decide) (by decide)
     (by decide)⟩

/-- C3. Cross-instance non-collision: two generators with different machine ids, both in
[0, 1023], never return the same identifier when the timestamps they store are in [0, 2^41),
whatever their states and clocks (the sequences are in [0, 4095] after every successful
call). -/
theorem cross_instance_non_collision (g1 g2 g1' g2' : SnowflakeIDGenerator)
    (clock1 clock2 rest1 rest2 : Clock) (id1 id2 : Int)
    (hm1 : 0 ≤ g1.machineID ∧ g1.machineID ≤ 1023)
    (hm2 : 0 ≤ g2.machineID ∧ g2.machineID ≤ 1023)
    (hne : g1.machineID ≠ g2.machineID)
    (h1 : GenerateID g1 clock1 = ⟨.ok id1, g1', rest1⟩)
    (h2 : GenerateID g2 clock2 = ⟨.ok id2, g2', rest2⟩)
    (ht1 : 0 ≤ g1'.lastGeneratedTimestamp ∧ g1'.lastGeneratedTimestamp < 2 ^ 41)
    (ht2 : 0 ≤ g2'.lastGeneratedTimestamp ∧ g2'.lastGeneratedTimestamp < 2 ^ 41) :
    id1 ≠ id2 ∧
      (0 ≤ g1'.currentSequenceNumber ∧ g1'.currentSequenceNumber ≤ 4095) ∧
      (0 ≤ g2'.currentSequenceNumber ∧ g2'.currentSequenceNumber ≤ 4095) := by
  obtain ⟨-, hid1, -, hs10, hs14⟩ := GenerateID_ok g1 clock1 id1 g1' rest1 h1
  obtain ⟨-, hid2, -, hs20, hs24⟩ := GenerateID_ok g2 clock2 id2 g2' rest2 h2
  refine ⟨?_, ⟨hs10, hs14⟩, ⟨hs20, hs24⟩⟩
  rw [hid1, hid2]
  exact assemble_ne _ _ _ _ _ _ hm1 ⟨hs10, hs14⟩ ht1 hm2 ⟨hs20, hs24⟩ ht2 hne

/-- Witness of C3: machines 1 and 2 at the same timestamp and sequence. -/
theorem cross_instance_non_collision_witness :
    GenerateID ⟨0, 1, 0, 0⟩ [3] = ⟨.ok 12587008, ⟨0, 1, 0, 3⟩, []⟩ ∧
    GenerateID ⟨0, 2, 0, 0⟩ [3] = ⟨.ok 12591104, ⟨0, 2, 0, 3⟩, []⟩ ∧
    (12587008 : Int) ≠ 12591104 :=
  ⟨by decide, by decide,
   (cross_instance_non_collision ⟨0, 1, 0, 0⟩ ⟨0, 2, 0, 0⟩ ⟨0, 1, 0, 3⟩ ⟨0, 2, 0, 3⟩ [3] [3] []
     [] 12587008 12591104 (by decide) (by decide) (by decide) (by decide) (by decide)
     (by decide) (by decide)).1⟩

/-- C4. Field extraction round trip: for a generator with machine id in [0, 1023], when the
advance step `getNextSequenceNumber` returns the pair (sequence, timestamp) with the timestamp
in [0, 2^41), `GenerateID` returns an identifier `x` with `x & MAX_SEQUENCE = sequence`,
`(x >> 12) & MAX_MACHINE_ID = machine_id` and `x >> 22 = timestamp`: `decodeID x` is
`(timestamp, machine_id, sequence)`. -/
theorem field_extraction (g g' : SnowflakeIDGenerator) (clock rest : Clock) (seq ts : Int)
    (hm : 0 ≤ g.machineID ∧ g.machineID ≤ 1023)
    (h : getNextSequenceNumber g clock = ⟨.ok (seq, ts), g', rest⟩)
    (ht : 0 ≤ ts ∧ ts < 2 ^ 41) :
    ∃ x, GenerateID g clock = ⟨.ok x, g', rest⟩ ∧
      and64 x MAX_SEQUENCE = seq ∧
      and64 (shr64 x 12) MAX_MACHINE_ID = g.machineID ∧
      shr64 x 22 = ts ∧
      decodeID x = (ts, g.machineID, seq) := by
  obtain ⟨r, obs, hsplit, -⟩ := ok_observed g clock seq ts g' rest h
  obtain ⟨hm', -, -, hs0, hs4, -, -⟩ := ok_step g clock (r :: obs) seq ts g' rest h hsplit
  refine ⟨assemble g'.machineID seq ts,
    (GenerateID_ok_iff g clock _ g' rest).mpr ⟨seq, ts, h, rfl⟩, ?_⟩
  rw [hm']
  have hd := decodeID_assemble g.machineID seq ts hm ⟨hs0, hs4⟩ ht
  have hd' := hd
  unfold decodeID at hd'
  simp only [Prod.mk.injEq, SEQUENCE_BIT, MACHINE_ID_BIT] at hd'
  exact ⟨hd'.2.2, hd'.2.1, hd'.1, hd⟩

/-- Witness of C4: machine 42, first reading 9. -/
theorem field_extraction_witness :
    getNextSequenceNumber ⟨0, 42, 0, 0⟩ [9] = ⟨.ok (0, 9), ⟨0, 42, 0, 9⟩, []⟩ ∧
    ∃ x, GenerateID ⟨0, 42, 0, 0⟩ [9] = ⟨.ok x, ⟨0, 42, 0, 9⟩, []⟩ ∧
      and64 x MAX_SEQUENCE = 0 ∧ and64 (shr64 x 12) MAX_MACHINE_ID = 42 ∧ shr64 x 22 = 9 ∧
      decodeID x = (9, 42, 0) :=
  ⟨by decide,
   field_extraction ⟨0, 42, 0, 0⟩ ⟨0, 42, 0, 9⟩ [9] [] 0 9 (by decide) (by decide)
     (by decide)⟩


/-- The result of `GenerateID` when the clock has a first reading below the stored
timestamp: the panic of `getNextSequenceNumber`, with the generator untouched. -/
theorem GenerateID_regress (g : SnowflakeIDGenerator) (r : Int) (rest : Clock)
    (h : r < g.lastGeneratedTimestamp) :
    GenerateID g (r :: rest) = ⟨.panic clockPanicMessage, g, rest⟩ := by
  simp [GenerateID, getNextSequenceNumber, timestamp, h]

/-- When the first reading is not below the stored timestamp, `getNextSequenceNumber` does
not panic. -/
theorem getNext_not_panic (g : SnowflakeIDGenerator) (r : Int) (rest : Clock) (msg : String)
    (h1 : ¬ r < g.lastGeneratedTimestamp) :
    (getNextSequenceNumber g (r :: rest)).result ≠ .panic msg := by
  simp only [getNextSequenceNumber, timestamp, if_neg h1]
  split_ifs
  · simp
  · split <;> simp
  · simp

/-- A panic of `GenerateID` is the clock panic: the first reading is below the stored
timestamp and the generator is untouched. -/
theorem GenerateID_panic (g : SnowflakeIDGenerator) (clock : Clock) (msg : String)
    (h : (GenerateID g clock).result = .panic msg) :
    msg = clockPanicMessage ∧ (GenerateID g clock).gen = g ∧
      ∃ r rest, clock = r :: rest ∧ r < g.lastGeneratedTimestamp := by
  cases clock with
  | nil => simp [GenerateID, getNextSequenceNumber, timestamp] at h
  | cons r rest =>
    by_cases h1 : r < g.lastGeneratedTimestamp
    · rw [GenerateID_regress g r rest h1] at h ⊢
      simp only [Result.panic.injEq] at h
      exact ⟨h.symm, rfl, r, rest, rfl, h1⟩
    · exfalso
      have hn := getNext_not_panic g r rest msg h1
      unfold GenerateID at h
      rcases hr : getNextSequenceNumber g (r :: rest) with ⟨res, gen, clk⟩
      rw [hr] at h hn
      cases res with
      | ok val => simp at h
      | panic m => simp only [Result.panic.injEq] at h; exact hn (by rw [h])
      | blocked => simp at h

/-- C5. `NewGenerator` panics exactly when the machine id is above `MAX_MACHINE_ID = 1023`;
for every other machine id, negative ones included, it returns the generator with that machine
id (and the given epoch), sequence number 0 and last timestamp 0. -/
theorem NewGenerator_contract (chosenEpoch machineID : Int) :
    MAX_MACHINE_ID = 1023 ∧
    ((∃ msg, NewGenerator chosenEpoch machineID = .panic msg) ↔ machineID > MAX_MACHINE_ID) ∧
    NewGenerator chosenEpoch machineID =
      if machineID > 1023 then .panic "machineID must be less than 1023"
      else .ok { chosenEpoch := chosenEpoch, machineID := machineID,
                 currentSequenceNumber := 0, lastGeneratedTimestamp := 0 } := by
  have hmax : MAX_MACHINE_ID = 1023 := by decide
  have hmsg : "machineID must be less than " ++ formatInt MAX_MACHINE_ID
      = "machineID must be less than 1023" := by decide
  refine ⟨hmax, ?_, ?_⟩
  · unfold NewGenerator
    by_cases h : machineID > MAX_MACHINE_ID
    · simp [h]
    · simp [h]
  · unfold NewGenerator
    rw [hmsg, hmax]

/-- C6. Clock-regression detection: in every state, a call of `GenerateID` whose first clock
reading is `r` panics with the clock panic exactly when `r` is below the stored timestamp, and
it has no other panic; in particular a first reading equal to the stored timestamp does not
panic. -/
theorem clock_regression_detection (g : SnowflakeIDGenerator) (r : Int) (rest : Clock) :
    ((GenerateID g (r :: rest)).result = .panic clockPanicMessage ↔
        r < g.lastGeneratedTimestamp) ∧
    ((∃ msg, (GenerateID g (r :: rest)).result = .panic msg) ↔
        r < g.lastGeneratedTimestamp) := by
  have key : ∀ msg, (GenerateID g (r :: rest)).result = .panic msg →
      r < g.lastGeneratedTimestamp := by
    intro msg h
    obtain ⟨-, -, r', rest', hc, hlt⟩ := GenerateID_panic g (r :: rest) msg h
    simp only [List.cons.injEq] at hc
    rw [hc.1]
    exact hlt
  constructor
  · constructor
    · exact key _
    · intro h
      rw [GenerateID_regress g r rest h]
  · constructor
    · rintro ⟨msg, h⟩
      exact key msg h
    · intro h
      exact ⟨clockPanicMessage, by rw [GenerateID_regress g r rest h]⟩

/-- C7. Future epoch: on the fresh generator returned by `NewGenerator`, a first call of
`GenerateID` whose first clock reading is negative panics with the clock panic and returns no
identifier. -/
theorem future_epoch (chosenEpoch machineID : Int) (g : SnowflakeIDGenerator) (r : Int)
    (rest : Clock) (hnew : NewGenerator chosenEpoch machineID = .ok g) (hr : r < 0) :
    (GenerateID g (r :: rest)).result = .panic clockPanicMessage ∧
      ∀ id, (GenerateID g (r :: rest)).result ≠ .ok id := by
  have hg : g.lastGeneratedTimestamp = 0 := by
    unfold NewGenerator at hnew
    split at hnew
    · simp at hnew
    · simp only [Result.ok.injEq] at hnew
      rw [← hnew]
  have h : r < g.lastGeneratedTimestamp := by rw [hg]; exact hr
  rw [GenerateID_regress g r rest h]
  exact ⟨rfl, fun id => by simp⟩

/-- Witness of C7: machine 1, the clock reads one hour before the epoch. -/
theorem future_epoch_witness :
    NewGenerator 0 1 = .ok ⟨0, 1, 0, 0⟩ ∧
    ((GenerateID ⟨0, 1, 0, 0⟩ [-3600000]).result = .panic clockPanicMessage ∧
      ∀ id, (GenerateID ⟨0, 1, 0, 0⟩ [-3600000]).result ≠ .ok id) :=
  ⟨by decide, future_epoch 0 1 ⟨0, 1, 0, 0⟩ (-3600000) [] (by decide) (by decide)⟩

/-- C8. Atomicity on failure: when `GenerateID` panics, the generator (machine id, sequence
number, last timestamp) is as it was before the call, and a further call whose first clock
reading is below the last timestamp panics again with the clock panic. -/
theorem failure_atomicity (g : SnowflakeIDGenerator) (clock : Clock) (msg : String)
    (h : (GenerateID g clock).result = .panic msg) :
    (GenerateID g clock).gen = g ∧
    (GenerateID g clock).gen.machineID = g.machineID ∧
    (GenerateID g clock).gen.currentSequenceNumber = g.currentSequenceNumber ∧
    (GenerateID g clock).gen.lastGeneratedTimestamp = g.lastGeneratedTimestamp ∧
    ∀ (r : Int) (rest : Clock), r < g.lastGeneratedTimestamp →
      GenerateID (GenerateID g clock).gen (r :: rest)
        = ⟨.panic clockPanicMessage, g, rest⟩ := by
  obtain ⟨-, hgen, -⟩ := GenerateID_panic g clock msg h
  rw [hgen]
  exact ⟨rfl, rfl, rfl, rfl, fun r rest hr => GenerateID_regress g r rest hr⟩

/-- Witness of C8: the stored timestamp is 10 and the clock reads 4, then 7. -/
theorem failure_atomicity_witness :
    (GenerateID ⟨0, 1, 3, 10⟩ [4, 7]).result = .panic clockPanicMessage ∧
    (GenerateID ⟨0, 1, 3, 10⟩ [4, 7]).gen = ⟨0, 1, 3, 10⟩ ∧
    GenerateID (GenerateID ⟨0, 1, 3, 10⟩ [4, 7]).gen [7]
      = ⟨.panic clockPanicMessage, ⟨0, 1, 3, 10⟩, []⟩ :=
  have h := failure_atomicity ⟨0, 1, 3, 10⟩ [4, 7] clockPanicMessage (by decide)
  ⟨by decide, h.1, h.2.2.2.2 7 [] (by decide)⟩

/-- C9. Sequence advance within a millisecond: for a generator with machine id in [0, 1023],
in any state, if two consecutive calls of `GenerateID` return identifiers, store timestamps in
[0, 2^41), and the two identifiers decode to the same timestamp field, then the sequence field
of the later identifier is (the sequence field of the earlier one + 1) & MAX_SEQUENCE. -/
theorem sequence_advance (g gA gB : SnowflakeIDGenerator) (clock restA restB : Clock)
    (idA idB : Int)
    (hm : 0 ≤ g.machineID ∧ g.machineID ≤ 1023)
    (hA : GenerateID g clock = ⟨.ok idA, gA, restA⟩)
    (hB : GenerateID gA restA = ⟨.ok idB, gB, restB⟩)
    (htA : 0 ≤ gA.lastGeneratedTimestamp ∧ gA.lastGeneratedTimestamp < 2 ^ 41)
    (htB : 0 ≤ gB.lastGeneratedTimestamp ∧ gB.lastGeneratedTimestamp < 2 ^ 41)
    (hsame : (decodeID idA).1 = (decodeID idB).1) :
    (decodeID idB).2.2 = and64 (add64 (decodeID idA).2.2 1) MAX_SEQUENCE := by
  obtain ⟨-, hidA, hmA, hsA0, hsA4⟩ := GenerateID_ok g clock idA gA restA hA
  obtain ⟨hnextB, hidB, -, hsB0, hsB4⟩ := GenerateID_ok gA restA idB gB restB hB
  rw [hmA] at hidB
  rw [hidA, decodeID_assemble _ _ _ hm ⟨hsA0, hsA4⟩ htA] at hsame ⊢
  rw [hidB, decodeID_assemble _ _ _ hm ⟨hsB0, hsB4⟩ htB] at hsame ⊢
  simp only at hsame ⊢
  rw [seq_step]
  obtain ⟨r, tail, -, -, -, hcase⟩ := getNext_ok gA restA _ _ gB restB hnextB
  rcases hcase with ⟨h1, -, h2, -⟩ | ⟨-, h2, -⟩ | ⟨-, -, -, h2, -⟩
  · omega
  · exact h2
  · exact absurd hsame.symm h2

/-- Witness of C9: machine 3, clock 8, 8. -/
theorem sequence_advance_witness :
    GenerateID ⟨0, 3, 0, 0⟩ [8, 8] = ⟨.ok 33566720, ⟨0, 3, 0, 8⟩, [8]⟩ ∧
    GenerateID ⟨0, 3, 0, 8⟩ [8] = ⟨.ok 33566721, ⟨0, 3, 1, 8⟩, []⟩ ∧
    (decodeID 33566720).1 = (decodeID 33566721).1 ∧
    (decodeID 33566721).2.2 = and64 (add64 (decodeID 33566720).2.2 1) MAX_SEQUENCE :=
  ⟨by decide, by decide, by decide,
   sequence_advance ⟨0, 3, 0, 0⟩ ⟨0, 3, 0, 8⟩ ⟨0, 3, 1, 8⟩ [8, 8] [8] [] 33566720 33566721
     (by decide) (by decide) (by decide) (by decide) (by decide) (by decide)⟩

/-- C10. Sign: for a generator with any machine id (every value `NewGenerator` accepts, the
negative ones included), in any state, an identifier returned by `GenerateID` with a stored
timestamp in [0, 2^41) is non-negative: bit 63 of its pattern is zero. -/
theorem sign_bit_zero (g g' : SnowflakeIDGenerator) (clock rest : Clock) (id : Int)
    (h : GenerateID g clock = ⟨.ok id, g', rest⟩)
    (ht : 0 ≤ g'.lastGeneratedTimestamp ∧ g'.lastGeneratedTimestamp < 2 ^ 41) :
    0 ≤ id ∧ (toBits id).testBit 63 = false := by
  obtain ⟨-, hid, -, hs0, hs4⟩ := GenerateID_ok g clock id g' rest h
  obtain ⟨s, hs⟩ := Int.eq_ofNat_of_zero_le hs0
  obtain ⟨t, ht'⟩ := Int.eq_ofNat_of_zero_le ht.1
  rw [hs] at hid hs4
  rw [ht'] at hid ht
  obtain ⟨hbits, hlt⟩ := assemble_bits g.machineID s t (by omega) (by omega)
  rw [hbits] at hid
  subst hid
  refine ⟨Int.ofNat_nonneg _, ?_⟩
  rw [toBits_natCast _ (by omega)]
  exact Nat.testBit_lt_two_pow hlt

/-- Witness of C10: the negative machine id -1, first reading 6. -/
theorem sign_bit_zero_witness :
    NewGenerator 0 (-1) = .ok ⟨0, -1, 0, 0⟩ ∧
    GenerateID ⟨0, -1, 0, 0⟩ [6] = ⟨.ok 17179865088, ⟨0, -1, 0, 6⟩, []⟩ ∧
    ((0 : Int) ≤ 17179865088 ∧ (toBits 17179865088).testBit 63 = false) :=
  ⟨by decide, by decide,
   sign_bit_zero ⟨0, -1, 0, 0⟩ ⟨0, -1, 0, 6⟩ [6] [] 17179865088 (by decide) (by decide)⟩


/-! ## Closed forms of the three successful branches -/

/-- The branch `currentTimestamp > lastGeneratedTimestamp`. -/
theorem GenerateID_advance (g : SnowflakeIDGenerator) (now : Int) (rest : Clock)
    (h : now > g.lastGeneratedTimestamp) :
    GenerateID g (now :: rest)
      = ⟨.ok (assemble g.machineID 0 now),
         { g with currentSequenceNumber := 0, lastGeneratedTimestamp := now }, rest⟩ := by
  have h1 : ¬ now < g.lastGeneratedTimestamp := by omega
  simp [GenerateID, getNextSequenceNumber, timestamp, h1, h]

/-- The branch `currentTimestamp == lastGeneratedTimestamp` without rollover. -/
theorem GenerateID_same_ms (g : SnowflakeIDGenerator) (rest : Clock)
    (h : (g.currentSequenceNumber + 1) % 4096 ≠ 0) :
    GenerateID g (g.lastGeneratedTimestamp :: rest)
      = ⟨.ok (assemble g.machineID ((g.currentSequenceNumber + 1) % 4096)
            g.lastGeneratedTimestamp),
         { g with currentSequenceNumber := (g.currentSequenceNumber + 1) % 4096 }, rest⟩ := by
  simp [GenerateID, getNextSequenceNumber, timestamp, seq_step, h]

/-- The spin-wait skips the readings equal to the stored timestamp and returns the first
other one. -/
theorem wait_skip (g : SnowflakeIDGenerator) (x : Int) (pre : Clock) (t : Int) (rest : Clock)
    (hpre : ∀ y ∈ pre, y = g.lastGeneratedTimestamp) (ht : t ≠ g.lastGeneratedTimestamp) :
    waitUntilNextMillisecond g x (pre ++ t :: rest) = some (t, rest) := by
  induction pre generalizing x with
  | nil => simp [waitUntilNextMillisecond, ht]
  | cons r pre ih =>
    have hr : r = g.lastGeneratedTimestamp := hpre r (by simp)
    have hrest : ∀ y ∈ pre, y = g.lastGeneratedTimestamp :=
      fun y hy => hpre y (List.mem_cons_of_mem _ hy)
    rw [List.cons_append, waitUntilNextMillisecond, if_neg (by simp [hr])]
    exact ih r hrest

/-- The branch `currentTimestamp == lastGeneratedTimestamp` with rollover. -/
theorem GenerateID_rollover (g : SnowflakeIDGenerator) (pre : Clock) (t : Int) (rest : Clock)
    (hs : (g.currentSequenceNumber + 1) % 4096 = 0)
    (hpre : ∀ y ∈ pre, y = g.lastGeneratedTimestamp) (ht : t ≠ g.lastGeneratedTimestamp) :
    GenerateID g (g.lastGeneratedTimestamp :: (pre ++ t :: rest))
      = ⟨.ok (assemble g.machineID 0 t),
         { g with currentSequenceNumber := 0, lastGeneratedTimestamp := t }, rest⟩ := by
  have hw := wait_skip
    { g with currentSequenceNumber := and64 (add64 g.currentSequenceNumber 1) MAX_SEQUENCE }
    g.lastGeneratedTimestamp pre t rest hpre ht
  simp only [GenerateID, getNextSequenceNumber, timestamp, lt_self_iff_false, if_false,
    gt_iff_lt, hw]
  simp [seq_step, hs]

/-- A list with an element other than `a` splits at the first such element. -/
theorem split_first_ne (a : Int) (l : List Int) (h : ∃ x ∈ l, x ≠ a) :
    ∃ pre t rest, l = pre ++ t :: rest ∧ (∀ y ∈ pre, y = a) ∧ t ≠ a := by
  induction l with
  | nil => simp at h
  | cons r tail ih =>
    by_cases hr : r = a
    · have h' : ∃ x ∈ tail, x ≠ a := by
        obtain ⟨x, hx, hne⟩ := h
        rcases List.mem_cons.mp hx with rfl | hx
        · exact absurd hr hne
        · exact ⟨x, hx, hne⟩
      obtain ⟨pre, t, rest, hl, hpre, ht⟩ := ih h'
      refine ⟨r :: pre, t, rest, by rw [hl]; rfl, ?_, ht⟩
      intro y hy
      rcases List.mem_cons.mp hy with rfl | hy
      · exact hr
      · exact hpre y hy
    · exact ⟨[], r, tail, rfl, by simp, hr⟩


/-! ## Low bits of an identifier -/

theorem toBits_ofBits_mod (n : Nat) : toBits (ofBits n) = n % 2 ^ 64 := by
  unfold toBits ofBits
  split <;> omega

theorem ofBits_emod (n : Nat) : ofBits n % 4096 = ((n % 4096 : Nat) : Int) := by
  unfold ofBits
  split <;> omega

theorem or_mod_two_pow (a b k : Nat) : (a ||| b) % 2 ^ k = a % 2 ^ k ||| b % 2 ^ k := by
  apply Nat.eq_of_testBit_eq
  intro i
  simp only [Nat.testBit_mod_two_pow, Nat.testBit_or]
  cases decide (i < k) <;> simp

theorem shl64_low (a : Int) (k : Nat) (hk : 12 ≤ k) : toBits (shl64 a k) % 4096 = 0 := by
  unfold shl64
  rw [toBits_ofBits_mod, Nat.shiftLeft_eq]
  have hpow : 2 ^ k = 2 ^ (k - 12) * 4096 := by
    rw [show (4096 : Nat) = 2 ^ 12 by norm_num, ← Nat.pow_add]
    congr 1
    omega
  have hdvd : 4096 ∣ toBits a * 2 ^ k := by
    rw [hpow, ← Nat.mul_assoc]
    exact Nat.dvd_mul_left _ _
  omega

/-- The low 12 bits of an assembled identifier are the sequence, whatever the machine id and
the timestamp. -/
theorem assemble_low (m s t : Int) (hs : 0 ≤ s ∧ s ≤ 4095) :
    and64 (assemble m s t) MAX_SEQUENCE = s := by
  rw [and64_MAX_SEQUENCE]
  unfold assemble
  simp only [or64]
  rw [ofBits_emod, show (4096 : Nat) = 2 ^ 12 by norm_num, or_mod_two_pow, toBits_ofBits_mod]
  have h1 := shl64_low (and64 (((1 <<< (MACHINE_ID_BIT + SEQUENCE_BIT) : Nat) : Int) - 1) m)
    SEQUENCE_BIT (by decide)
  have h2 := shl64_low
    (and64 (((1 <<< (TIMESTAMP_BIT + MACHINE_ID_BIT + SEQUENCE_BIT) : Nat) : Int) - 1) t)
    (MACHINE_ID_BIT + SEQUENCE_BIT) (by decide)
  rw [show (4096 : Nat) = 2 ^ 12 by norm_num] at h1 h2
  have h3 : ∀ n : Nat, n % 2 ^ 64 % 2 ^ 12 = n % 2 ^ 12 := fun n => by omega
  rw [h3, or_mod_two_pow, h1, h2]
  obtain ⟨s', rfl⟩ := Int.eq_ofNat_of_zero_le hs.1
  rw [toBits_natCast s' (by omega)]
  simp only [Nat.zero_or, Nat.or_self]
  omega


/-! ## The formula of the specification -/

theorem and64_low_mask (n k : Nat) (hk : k ≤ 62) (hn : n < 2 ^ k) :
    and64 (n : Int) (((1 <<< k : Nat) : Int) - 1) = (n : Int) := by
  have hk2 : (2 : Nat) ^ k ≤ 2 ^ 62 := Nat.pow_le_pow_right (by norm_num) hk
  have hpos : 0 < 2 ^ k := Nat.pos_pow_of_pos k (by norm_num)
  have hmask : toBits (((1 <<< k : Nat) : Int) - 1) = 2 ^ k - 1 := by
    rw [Nat.shiftLeft_eq, Nat.one_mul]
    have hc : ((2 ^ k : Nat) : Int) - 1 = ((2 ^ k - 1 : Nat) : Int) := by omega
    rw [hc, toBits_natCast _ (by omega)]
  unfold and64
  rw [hmask, toBits_natCast n (by omega), and_mask, Nat.mod_eq_of_lt hn,
    ofBits_of_lt n (by omega)]

/-- On in-range fields the formula of the specification is the same sum as the code. -/
theorem assembleSpec_eq_int (m s t : Int) (hm : 0 ≤ m ∧ m ≤ 1023) (hs : 0 ≤ s ∧ s ≤ 4095)
    (ht : 0 ≤ t ∧ t < 2 ^ 41) : assembleSpec m s t = t * 4194304 + m * 4096 + s := by
  obtain ⟨m', rfl⟩ := Int.eq_ofNat_of_zero_le hm.1
  obtain ⟨s', rfl⟩ := Int.eq_ofNat_of_zero_le hs.1
  obtain ⟨t', rfl⟩ := Int.eq_ofNat_of_zero_le ht.1
  have hm' : m' < 2 ^ 10 := by omega
  have hs' : s' < 2 ^ 12 := by omega
  have ht' : t' < 2 ^ 41 := by omega
  unfold assembleSpec
  rw [and64_low_mask t' 41 (by norm_num) ht', and64_low_mask m' 10 (by norm_num) hm',
    and64_low_mask s' 12 (by norm_num) hs', shl64_natCast t' 22 (by omega),
    shl64_natCast m' 12 (by omega), or64_natCast _ _ (by omega) (by omega),
    or_eq_add 22 t' _ (by omega)]
  have h : t' * 2 ^ 22 + m' * 2 ^ 12 = (t' * 2 ^ 10 + m') * 2 ^ 12 := by ring
  rw [h, or64_natCast _ _ (by omega) (by omega), or_eq_add 12 _ s' hs']
  push_cast
  ring

/-- The code and the formula of the specification agree on in-range fields. -/
theorem assemble_eq_assembleSpec (m s t : Int) (hm : 0 ≤ m ∧ m ≤ 1023)
    (hs : 0 ≤ s ∧ s ≤ 4095) (ht : 0 ≤ t ∧ t < 2 ^ 41) :
    assemble m s t = assembleSpec m s t := by
  rw [assemble_eq_int m s t hm hs ht, assembleSpec_eq_int m s t hm hs ht]

/-- C11. Assembly formula, evaluated where the code leaves it: `NewGenerator` accepts the
machine id -1, and for the pair (sequence 0, timestamp 6) `GenerateID` returns 17179865088,
while the formula with the masks `2^41 - 1`, `2^10 - 1` and `2^12 - 1` gives 29356032.  The
masks of the code are `2^63 - 1` and `2^22 - 1`. -/
theorem assembly_formula_divergence :
    NewGenerator 0 (-1) = .ok ⟨0, -1, 0, 0⟩ ∧
    getNextSequenceNumber ⟨0, -1, 0, 0⟩ [6] = ⟨.ok (0, 6), ⟨0, -1, 0, 6⟩, []⟩ ∧
    GenerateID ⟨0, -1, 0, 0⟩ [6] = ⟨.ok 17179865088, ⟨0, -1, 0, 6⟩, []⟩ ∧
    assembleSpec (-1) 0 6 = 29356032 := by
  decide

/-- C12. Sequence range invariant: after every call of `GenerateID` that returns an
identifier, from any prior state, the stored sequence number is in [0, MAX_SEQUENCE] with
`MAX_SEQUENCE = 4095`, the identifier is assembled from that stored value, and its low 12 bits
are that value. -/
theorem sequence_range_invariant (g g' : SnowflakeIDGenerator) (clock rest : Clock) (id : Int)
    (h : GenerateID g clock = ⟨.ok id, g', rest⟩) :
    MAX_SEQUENCE = 4095 ∧
    0 ≤ g'.currentSequenceNumber ∧ g'.currentSequenceNumber ≤ MAX_SEQUENCE ∧
    id = assemble g'.machineID g'.currentSequenceNumber g'.lastGeneratedTimestamp ∧
    and64 id MAX_SEQUENCE = g'.currentSequenceNumber := by
  have hmax : MAX_SEQUENCE = 4095 := by decide
  obtain ⟨-, hid, hm, hs0, hs4⟩ := GenerateID_ok g clock id g' rest h
  rw [← hm] at hid
  refine ⟨hmax, hs0, by rw [hmax]; exact hs4, hid, ?_⟩
  rw [hid]
  exact assemble_low _ _ _ ⟨hs0, hs4⟩

/-- Witness of C12: a prior state with the sequence number -7 out of range. -/
theorem sequence_range_invariant_witness :
    GenerateID ⟨0, 5, -7, 10⟩ [10] = ⟨.ok 41967610, ⟨0, 5, 4090, 10⟩, []⟩ ∧
    (MAX_SEQUENCE = 4095 ∧ (0 : Int) ≤ 4090 ∧ 4090 ≤ MAX_SEQUENCE ∧
      41967610 = assemble 5 4090 10 ∧ and64 41967610 MAX_SEQUENCE = 4090) :=
  ⟨by decide,
   sequence_range_invariant ⟨0, 5, -7, 10⟩ ⟨0, 5, 4090, 10⟩ [10] [] 41967610 (by decide)⟩

/-- C15. Rollover: when the first reading equals the stored timestamp, the stored sequence
number is 4095 and the later readings contain a value other than the stored timestamp, the
call returns: it consumes the readings up to and including the first one `t` that differs,
stores `t`, keeps the sequence number 0 and assembles the identifier from (0, `t`). -/
theorem rollover (g : SnowflakeIDGenerator) (tail : Clock)
    (hs : g.currentSequenceNumber = 4095)
    (h : ∃ x ∈ tail, x ≠ g.lastGeneratedTimestamp) :
    ∃ pre t rest, tail = pre ++ t :: rest ∧
      (∀ y ∈ pre, y = g.lastGeneratedTimestamp) ∧ t ≠ g.lastGeneratedTimestamp ∧
      GenerateID g (g.lastGeneratedTimestamp :: tail)
        = ⟨.ok (assemble g.machineID 0 t),
           { g with currentSequenceNumber := 0, lastGeneratedTimestamp := t }, rest⟩ := by
  obtain ⟨pre, t, rest, hl, hpre, ht⟩ := split_first_ne g.lastGeneratedTimestamp tail h
  refine ⟨pre, t, rest, hl, hpre, ht, ?_⟩
  rw [hl]
  exact GenerateID_rollover g pre t rest (by rw [hs]; decide) hpre ht

/-- Witness of C15: stored (5, 4095), readings 5, then 5, 5, 9, 2. -/
theorem rollover_witness :
    ∃ pre t rest, [5, 5, 9, 2] = pre ++ t :: rest ∧
      (∀ y ∈ pre, y = (5 : Int)) ∧ t ≠ 5 ∧
      GenerateID ⟨0, 1, 4095, 5⟩ (5 :: [5, 5, 9, 2])
        = ⟨.ok (assemble 1 0 t), ⟨0, 1, 0, t⟩, rest⟩ :=
  rollover ⟨0, 1, 4095, 5⟩ [5, 5, 9, 2] rfl ⟨9, by decide, by decide⟩

/-- C16. Timestamp advance: in every state, when the first reading `now` is above the stored
timestamp, however far, `GenerateID` returns after that single reading, sets the sequence
number to 0 and the stored timestamp to `now`, and assembles the identifier from (0, `now`). -/
theorem timestamp_advance (g : SnowflakeIDGenerator) (now : Int) (rest : Clock)
    (h : now > g.lastGeneratedTimestamp) :
    GenerateID g (now :: rest)
      = ⟨.ok (assemble g.machineID 0 now),
         { g with currentSequenceNumber := 0, lastGeneratedTimestamp := now }, rest⟩ ∧
    getNextSequenceNumber g (now :: rest)
      = ⟨.ok (0, now),
         { g with currentSequenceNumber := 0, lastGeneratedTimestamp := now }, rest⟩ := by
  refine ⟨GenerateID_advance g now rest h, ?_⟩
  have h1 : ¬ now < g.lastGeneratedTimestamp := by omega
  simp [getNextSequenceNumber, timestamp, h1, h]

/-- Witness of C16: stored (5, 17), the clock jumps to 1000000. -/
theorem timestamp_advance_witness :
    GenerateID ⟨0, 1, 17, 5⟩ [1000000, 3]
      = ⟨.ok (assemble 1 0 1000000), ⟨0, 1, 0, 1000000⟩, [3]⟩ ∧
    getNextSequenceNumber ⟨0, 1, 17, 5⟩ [1000000, 3]
      = ⟨.ok (0, 1000000), ⟨0, 1, 0, 1000000⟩, [3]⟩ :=
  timestamp_advance ⟨0, 1, 17, 5⟩ 1000000 [3] (by decide)


/-- The identifier assembled at timestamp 0, for any machine id: the machine id cut to 22
bits, placed at bit 12, plus the sequence. -/
theorem assemble_at_zero (m s : Int) (hs : 0 ≤ s ∧ s ≤ 4095) :
    assemble m s 0 = (m % 4194304) * 4096 + s := by
  obtain ⟨s', rfl⟩ := Int.eq_ofNat_of_zero_le hs.1
  have h := (assemble_bits m s' 0 (by omega) (by norm_num)).1
  rw [Nat.cast_zero] at h
  rw [h, Nat.zero_mul, Nat.or_zero, or_eq_add 12 _ s' (by omega)]
  have := toBits_lt m
  unfold toBits
  push_cast
  omega

/-- C17, the counterexample: `NewGenerator` accepts the negative machine id -4194304 = -2^22,
and the identifier it emits at timestamp 0 is 1, whose bits from position 22 on are all
zero. -/
theorem negative_machine_id_no_bleed :
    (-4194304 : Int) < 0 ∧
    NewGenerator 0 (-4194304) = .ok ⟨0, -4194304, 0, 0⟩ ∧
    GenerateID ⟨0, -4194304, 0, 0⟩ [0] = ⟨.ok 1, ⟨0, -4194304, 1, 0⟩, []⟩ ∧
    shr64 1 22 = 0 := by
  decide

/-- C17, amended. Negative machine-id bleed: an identifier `x` emitted at timestamp 0 has
`x >> 22 = (machine_id mod 2^22) >> 10`, so the machine-id bits spill into the timestamp
field exactly when `machine_id mod 2^22` is at least 1024; every machine id in
[-4193280, -1] is such a one. -/
theorem negative_machine_id_bleed (g g' : SnowflakeIDGenerator) (clock rest : Clock)
    (id : Int) (h : GenerateID g clock = ⟨.ok id, g', rest⟩)
    (ht : g'.lastGeneratedTimestamp = 0) :
    shr64 id 22 = (g.machineID % 4194304) / 1024 ∧
    (shr64 id 22 ≠ 0 ↔ 1024 ≤ g.machineID % 4194304) ∧
    (-4193280 ≤ g.machineID ∧ g.machineID ≤ -1 → shr64 id 22 ≠ 0) := by
  obtain ⟨-, hid, -, hs0, hs4⟩ := GenerateID_ok g clock id g' rest h
  rw [ht, assemble_at_zero _ _ ⟨hs0, hs4⟩] at hid
  have hv : shr64 id 22 = (g.machineID % 4194304) / 1024 := by
    unfold shr64
    rw [Int.shiftRight_eq_div_pow, hid]
    push_cast
    omega
  rw [hv]
  refine ⟨rfl, ?_, ?_⟩
  · omega
  · omega

/-- Witness of C17, amended: the machine id -1 at timestamp 0. -/
theorem negative_machine_id_bleed_witness :
    NewGenerator 0 (-1) = .ok ⟨0, -1, 0, 0⟩ ∧
    GenerateID ⟨0, -1, 0, 0⟩ [0] = ⟨.ok 17179865089, ⟨0, -1, 1, 0⟩, []⟩ ∧
    shr64 17179865089 22 = 4095 ∧ shr64 17179865089 22 ≠ 0 :=
  have h := negative_machine_id_bleed ⟨0, -1, 0, 0⟩ ⟨0, -1, 1, 0⟩ [0] [] 17179865089
    (by decide) rfl
  ⟨by decide, by decide, h.1.trans (by decide), h.2.2 (by decide)⟩

/-- C18. Accepted range against the panic message, evaluated where the code leaves it:
`NewGenerator` returns a generator for the machine id 1023 = `MAX_MACHINE_ID`, which is not
less than 1023, and the message of its panic (raised from 1024 on) reads "machineID must be
less than 1023". -/
theorem accepted_range_divergence :
    NewGenerator 0 1023 = .ok ⟨0, 1023, 0, 0⟩ ∧
    ¬ ((1023 : Int) < MAX_MACHINE_ID) ∧
    NewGenerator 0 1024 = .panic "machineID must be less than 1023" := by
  decide

/-- C19. Time-ordered packing: for timestamps in [0, 2^41), machine ids in [0, 1023] and
sequences in [0, 4095], the identifier assembled from (t1, m1, s1) is below the one assembled
from (t2, m2, s2) exactly when (t1, m1, s1) is below (t2, m2, s2) in lexicographic order. -/
theorem time_ordered_packing (t1 m1 s1 t2 m2 s2 : Int)
    (ht1 : 0 ≤ t1 ∧ t1 < 2 ^ 41) (hm1 : 0 ≤ m1 ∧ m1 ≤ 1023) (hs1 : 0 ≤ s1 ∧ s1 ≤ 4095)
    (ht2 : 0 ≤ t2 ∧ t2 < 2 ^ 41) (hm2 : 0 ≤ m2 ∧ m2 ≤ 1023) (hs2 : 0 ≤ s2 ∧ s2 ≤ 4095) :
    assemble m1 s1 t1 < assemble m2 s2 t2 ↔
      (t1 < t2 ∨ (t1 = t2 ∧ (m1 < m2 ∨ (m1 = m2 ∧ s1 < s2)))) := by
  rw [assemble_eq_int m1 s1 t1 hm1 hs1 ht1, assemble_eq_int m2 s2 t2 hm2 hs2 ht2]
  omega

/-- Witness of C19: (3, 1023, 4095) against (4, 0, 0). -/
theorem time_ordered_packing_witness :
    (assemble 1023 4095 3 < assemble 0 0 4 ↔
      ((3 : Int) < 4 ∨ ((3 : Int) = 4 ∧ ((1023 : Int) < 0 ∨ ((1023 : Int) = 0 ∧
        (4095 : Int) < 0))))) ∧
    assemble 1023 4095 3 < assemble 0 0 4 :=
  have h := time_ordered_packing 3 1023 4095 4 0 0 (by decide) (by decide) (by decide)
    (by decide) (by decide) (by decide)
  ⟨h, h.mpr (Or.inl (by decide))⟩


/-! ## Runs of calls -/

theorem generateIDs_cons (n : Nat) (g g1 : SnowflakeIDGenerator) (clock clock1 : Clock)
    (id : Int) (calls : List (Int × SnowflakeIDGenerator))
    (h : GenerateID g clock = ⟨.ok id, g1, clock1⟩)
    (hr : generateIDs n g1 clock1 = some calls) :
    generateIDs (n + 1) g clock = some ((id, g1) :: calls) := by
  rw [generateIDs, h]
  simp only
  rw [hr]

/-- The first call of a successful run and the run that follows it. -/
theorem generateIDs_succ (n : Nat) (g : SnowflakeIDGenerator) (clock : Clock)
    (calls : List (Int × SnowflakeIDGenerator))
    (h : generateIDs (n + 1) g clock = some calls) :
    ∃ id g1 clock1 calls1, GenerateID g clock = ⟨.ok id, g1, clock1⟩ ∧
      generateIDs n g1 clock1 = some calls1 ∧ calls = (id, g1) :: calls1 := by
  unfold generateIDs at h
  rcases hG : GenerateID g clock with ⟨res, g1, clock1⟩
  rw [hG] at h
  cases res with
  | panic msg => simp at h
  | blocked => simp at h
  | ok id =>
    simp only at h
    cases hrec : generateIDs n g1 clock1 with
    | none => rw [hrec] at h; simp at h
    | some calls1 =>
      rw [hrec] at h
      simp only [Option.some.injEq] at h
      exact ⟨id, g1, clock1, calls1, rfl, hrec, h.symm⟩

/-- On a non-decreasing clock a successful call from a state with the sequence number in
range raises the stored pair and leaves a non-decreasing clock. -/
theorem sorted_step (g g1 : SnowflakeIDGenerator) (clock clock1 : Clock) (id : Int)
    (hs : 0 ≤ g.currentSequenceNumber ∧ g.currentSequenceNumber ≤ 4095)
    (hclock : clock.Pairwise (· ≤ ·))
    (h : GenerateID g clock = ⟨.ok id, g1, clock1⟩) :
    clock1.Pairwise (· ≤ ·) ∧
      (0 ≤ g1.currentSequenceNumber ∧ g1.currentSequenceNumber ≤ 4095) ∧
      (g.lastGeneratedTimestamp < g1.lastGeneratedTimestamp ∨
        (g1.lastGeneratedTimestamp = g.lastGeneratedTimestamp ∧
          g.currentSequenceNumber < g1.currentSequenceNumber)) := by
  obtain ⟨hnext, -, -, hs0, hs4⟩ := GenerateID_ok g clock id g1 clock1 h
  obtain ⟨r, obs, hsplit, hle⟩ := ok_observed g clock _ _ g1 clock1 hnext
  obtain ⟨-, -, -, -, -, -, hgrow⟩ := ok_step g clock (r :: obs) _ _ g1 clock1 hnext hsplit
  rw [hsplit] at hclock
  obtain ⟨hobs, hrest, -⟩ := List.pairwise_append.mp hclock
  have hge : ∀ x ∈ r :: obs, g.lastGeneratedTimestamp ≤ x := by
    intro x hx
    rcases List.mem_cons.mp hx with rfl | hx
    · exact hle
    · exact le_trans hle ((List.pairwise_cons.mp hobs).1 x hx)
  exact ⟨hrest, ⟨hs0, hs4⟩, hgrow hge hs.1 hs.2⟩

/-- On a non-decreasing clock, from a state with a non-negative timestamp, no call of a run
stores the pair (timestamp 0, sequence 0). -/
theorem run_never_zero (n : Nat) : ∀ (g : SnowflakeIDGenerator) (clock : Clock)
    (calls : List (Int × SnowflakeIDGenerator)),
    0 ≤ g.lastGeneratedTimestamp →
    (0 ≤ g.currentSequenceNumber ∧ g.currentSequenceNumber ≤ 4095) →
    clock.Pairwise (· ≤ ·) →
    generateIDs n g clock = some calls →
    ∀ c ∈ calls, ¬ (c.2.lastGeneratedTimestamp = 0 ∧ c.2.currentSequenceNumber = 0) := by
  induction n with
  | zero =>
    intro g clock calls _ _ _ hrun
    simp only [generateIDs, Option.some.injEq] at hrun
    subst hrun
    simp
  | succ n ih =>
    intro g clock calls hl hs hclock hrun c hc
    obtain ⟨id, g1, clock1, calls1, hG, hrec, rfl⟩ := generateIDs_succ n g clock calls hrun
    obtain ⟨hsorted, hs1, hgrow⟩ := sorted_step g g1 clock clock1 id hs hclock hG
    rcases List.mem_cons.mp hc with rfl | hc
    · simp only
      omega
    · exact ih g1 clock1 calls1 (by omega) hs1 hsorted hrec c hc

/-- A run of `k` calls that all read the stored timestamp, while the sequence number stays
below the rollover, followed by any run. -/
theorem run_same_ms (e m t : Int) (n : Nat) (tail : Clock)
    (calls : List (Int × SnowflakeIDGenerator)) : ∀ (k : Nat) (s : Int),
    0 ≤ s → s + k ≤ 4095 →
    generateIDs n ⟨e, m, s + k, t⟩ tail = some calls →
    ∃ pre, pre.length = k ∧
      generateIDs (k + n) ⟨e, m, s, t⟩ (List.replicate k t ++ tail) = some (pre ++ calls) := by
  intro k
  induction k with
  | zero =>
    intro s _ _ hrun
    refine ⟨[], rfl, ?_⟩
    simpa using hrun
  | succ k ih =>
    intro s hs0 hsk hrun
    have hmod : (s + 1) % 4096 = s + 1 := by omega
    have hstep := GenerateID_same_ms ⟨e, m, s, t⟩ (List.replicate k t ++ tail)
      (by simp only; omega)
    simp only [hmod] at hstep
    have hrun' : generateIDs n ⟨e, m, s + 1 + k, t⟩ tail = some calls := by
      have : s + 1 + (k : Int) = s + ((k + 1 : Nat) : Int) := by push_cast; ring
      rw [this]
      exact hrun
    obtain ⟨pre, hlen, hpre⟩ := ih (s + 1) (by omega) (by push_cast at hsk; omega) hrun'
    refine ⟨(assemble m (s + 1) t, ⟨e, m, s + 1, t⟩) :: pre, by simp [hlen], ?_⟩
    have hk : k + 1 + n = (k + n) + 1 := by omega
    rw [hk, List.replicate_succ, List.cons_append]
    exact generateIDs_cons (k + n) _ _ _ _ _ _ hstep hpre


/-- C13. Lexicographic advance invariant, evaluated where the code leaves it.  The generator
of `NewGenerator 0 1` makes 4097 calls on the clock 5 (4097 times), 3.  The call before the
last leaves the pair (timestamp 5, sequence 4095); the last call reads 5, rolls over, reads 3
in the spin-wait and returns: it leaves the pair (3, 0), and its identifier is the smaller
one. -/
theorem lexicographic_advance_divergence :
    NewGenerator 0 1 = .ok ⟨0, 1, 0, 0⟩ ∧
    (∃ pre, generateIDs 4097 ⟨0, 1, 0, 0⟩ (5 :: (List.replicate 4094 5 ++ [5, 5, 3]))
      = some (pre ++ [(20979711, ⟨0, 1, 4095, 5⟩), (12587008, ⟨0, 1, 0, 3⟩)])) ∧
    GenerateID ⟨0, 1, 4095, 5⟩ [5, 3] = ⟨.ok 12587008, ⟨0, 1, 0, 3⟩, []⟩ ∧
    (3 : Int) < 5 ∧ (12587008 : Int) < 20979711 := by
  refine ⟨by decide, ?_, by decide, by decide, by decide⟩
  have h2 : generateIDs 2 ⟨0, 1, (0 : Int) + ((4094 : Nat) : Int), 5⟩ [5, 5, 3]
      = some [(20979711, ⟨0, 1, 4095, 5⟩), (12587008, ⟨0, 1, 0, 3⟩)] := by decide
  obtain ⟨pre, -, hpre⟩ := run_same_ms 0 1 5 2 [5, 5, 3] _ 4094 0 (by decide) (by decide) h2
  have h1 : GenerateID ⟨0, 1, 0, 0⟩ (5 :: (List.replicate 4094 5 ++ [5, 5, 3]))
      = ⟨.ok 20975616, ⟨0, 1, 0, 5⟩, List.replicate 4094 5 ++ [5, 5, 3]⟩ := by
    rw [GenerateID_advance _ 5 _ (by decide)]
    have ha : assemble 1 0 5 = 20975616 := by decide
    simp only [ha]
  exact ⟨(20975616, ⟨0, 1, 0, 5⟩) :: pre, generateIDs_cons 4096 _ _ _ _ _ _ h1 hpre⟩


/-- For a machine id in range, `(machine_id << 12) | 1` is the identifier assembled from
sequence 1 and timestamp 0. -/
theorem assemble_one_zero (m : Int) (hm : 0 ≤ m ∧ m ≤ 1023) :
    assemble m 1 0 = or64 (shl64 m 12) 1 := by
  rw [assemble_eq_int m 1 0 hm (by decide) (by decide)]
  obtain ⟨m', rfl⟩ := Int.eq_ofNat_of_zero_le hm.1
  have h1 : (1 : Int) = ((1 : Nat) : Int) := rfl
  rw [shl64_natCast m' 12 (by omega), h1, or64_natCast _ _ (by omega) (by omega),
    or_eq_add 12 m' 1 (by norm_num)]
  push_cast
  ring

/-- The first call on the fresh generator of `NewGenerator` with machine id in [0, 1023],
when its first reading is 0: after that single reading it returns `(machine_id << 12) | 1`,
which decodes to timestamp 0, the machine id and sequence 1, and it stores (timestamp 0,
sequence 1), on every clock.  On a non-decreasing clock no call of a run from the fresh
generator stores the pair (timestamp 0, sequence 0). -/
theorem fresh_first_reading_zero (chosenEpoch machineID : Int) (g : SnowflakeIDGenerator)
    (rest : Clock) (hm : 0 ≤ machineID ∧ machineID ≤ 1023)
    (hnew : NewGenerator chosenEpoch machineID = .ok g) :
    GenerateID g (0 :: rest)
      = ⟨.ok (or64 (shl64 machineID 12) 1), ⟨chosenEpoch, machineID, 1, 0⟩, rest⟩ ∧
    decodeID (or64 (shl64 machineID 12) 1) = (0, machineID, 1) ∧
    ∀ (n : Nat) (calls : List (Int × SnowflakeIDGenerator)),
      (0 :: rest).Pairwise (· ≤ ·) → generateIDs n g (0 :: rest) = some calls →
      ∀ c ∈ calls, ¬ (c.2.lastGeneratedTimestamp = 0 ∧ c.2.currentSequenceNumber = 0) := by
  have hg : g = ⟨chosenEpoch, machineID, 0, 0⟩ := by
    unfold NewGenerator at hnew
    split at hnew
    · simp at hnew
    · simp only [Result.ok.injEq] at hnew
      exact hnew.symm
  subst hg
  have hone := assemble_one_zero machineID hm
  refine ⟨?_, ?_, ?_⟩
  · have hs := GenerateID_same_ms ⟨chosenEpoch, machineID, 0, 0⟩ rest (by simp)
    have hb : ((0 : Int) + 1) % 4096 = 1 := by decide
    simp only [hb, hone] at hs
    exact hs
  · rw [← hone]
    exact decodeID_assemble machineID 1 0 hm (by decide) (by decide)
  · intro n calls hclock hrun
    exact run_never_zero n _ _ calls (le_refl _) (by simp) hclock hrun

/-- C20. First call at the epoch, evaluated where the code leaves it.  The generator of
`NewGenerator 0 1` makes 4098 calls on the clock 0, 5 (4097 times), 0.  Its first reading is 0
and its first call returns 4097 = `(1 << 12) | 1`, sequence 1 at timestamp 0, as the claim
says.  The call before the last leaves the pair (timestamp 5, sequence 4095); the last call
reads 5, rolls over, reads 0 in the spin-wait and returns the identifier 4096, which is
sequence 0 at timestamp 0. -/
theorem first_call_zero_emitted :
    NewGenerator 0 1 = .ok ⟨0, 1, 0, 0⟩ ∧
    (∃ mid, generateIDs 4098 ⟨0, 1, 0, 0⟩ (0 :: 5 :: (List.replicate 4094 5 ++ [5, 5, 0]))
      = some ((4097, ⟨0, 1, 1, 0⟩) :: mid ++ [(4096, ⟨0, 1, 0, 0⟩)])) ∧
    GenerateID ⟨0, 1, 4095, 5⟩ [5, 0] = ⟨.ok 4096, ⟨0, 1, 0, 0⟩, []⟩ ∧
    decodeID 4097 = (0, 1, 1) ∧
    decodeID 4096 = (0, 1, 0) := by
  refine ⟨by decide, ?_, by decide, by decide, by decide⟩
  have h2 : generateIDs 2 ⟨0, 1, (0 : Int) + ((4094 : Nat) : Int), 5⟩ [5, 5, 0]
      = some [(20979711, ⟨0, 1, 4095, 5⟩), (4096, ⟨0, 1, 0, 0⟩)] := by decide
  obtain ⟨pre, -, hpre⟩ := run_same_ms 0 1 5 2 [5, 5, 0] _ 4094 0 (by decide) (by decide) h2
  have h1 : GenerateID ⟨0, 1, 1, 0⟩ (5 :: (List.replicate 4094 5 ++ [5, 5, 0]))
      = ⟨.ok 20975616, ⟨0, 1, 0, 5⟩, List.replicate 4094 5 ++ [5, 5, 0]⟩ := by
    rw [GenerateID_advance _ 5 _ (by decide)]
    have ha : assemble 1 0 5 = 20975616 := by decide
    simp only [ha]
  have h0 : GenerateID ⟨0, 1, 0, 0⟩ (0 :: 5 :: (List.replicate 4094 5 ++ [5, 5, 0]))
      = ⟨.ok 4097, ⟨0, 1, 1, 0⟩, 5 :: (List.replicate 4094 5 ++ [5, 5, 0])⟩ := by
    have hs := GenerateID_same_ms ⟨0, 1, 0, 0⟩ (5 :: (List.replicate 4094 5 ++ [5, 5, 0]))
      (by decide)
    have ha : assemble 1 ((0 + 1) % 4096) 0 = 4097 := by decide
    have hb : ((0 : Int) + 1) % 4096 = 1 := by decide
    simp only [ha, hb] at hs
    exact hs
  refine ⟨(20975616, ⟨0, 1, 0, 5⟩) :: pre ++ [(20979711, ⟨0, 1, 4095, 5⟩)], ?_⟩
  have hrun := generateIDs_cons 4097 _ _ _ _ _ _ h0 (generateIDs_cons 4096 _ _ _ _ _ _ h1 hpre)
  rw [hrun]
  simp

end Snowflake
